import Mathlib

/-!
Shallow embedding of the moviefy single-page application
(`src/app/page.tsx`): the conversion orchestration pipeline built around
an ffmpeg.wasm engine.  React state updates are modelled as explicit
state passing over an `AppState` record, browser object URLs as an
explicit `UrlStore`, and the engine's virtual filesystem as a list of
paths.  JavaScript string primitives used by the source
(`split('.')`, `pop`, `toLowerCase`, `lastIndexOf`, `substring`) are
modelled character-list-wise, keeping JS semantics (empty segments kept,
`lastIndexOf` returning -1 mapped to an empty take).
-/

namespace Moviefy

/-- Model of JS `String.prototype.split` with a one-character separator,
acting on the string's character list: every occurrence of the separator
splits, empty segments are kept, and the empty string yields one empty
segment (in JS, `"".split(".")` is `[""]`). -/
def splitChar (sep : Char) : List Char → List (List Char)
  | [] => [[]]
  | c :: cs =>
    match splitChar sep cs with
    | [] => [[]]
    | h :: t => if c = sep then [] :: h :: t else (c :: h) :: t

theorem splitChar_ne_nil (sep : Char) (l : List Char) : splitChar sep l ≠ [] := by
  induction l with
  | nil => simp [splitChar]
  | cons c cs ih =>
    simp only [splitChar]
    cases h : splitChar sep cs with
    | nil => simp
    | cons h t =>
      by_cases hc : c = sep <;> simp [hc]

theorem splitChar_append_sep (sep : Char) (xs ys : List Char) :
    splitChar sep (xs ++ sep :: ys) = splitChar sep xs ++ splitChar sep ys := by
  induction xs with
  | nil =>
    simp only [List.nil_append, splitChar]
    cases h : splitChar sep ys with
    | nil => exact absurd h (splitChar_ne_nil sep ys)
    | cons h t => simp
  | cons c cs ih =>
    cases h : splitChar sep cs with
    | nil => exact absurd h (splitChar_ne_nil sep cs)
    | cons hd t =>
      have key : splitChar sep (cs ++ sep :: ys) = hd :: (t ++ splitChar sep ys) := by
        rw [ih, h]; rfl
      simp only [List.cons_append, splitChar, List.append_eq]
      rw [key, h]
      by_cases hc : c = sep <;> simp [hc]

theorem splitChar_of_not_mem (sep : Char) (l : List Char) (h : sep ∉ l) :
    splitChar sep l = [l] := by
  induction l with
  | nil => rfl
  | cons c cs ih =>
    simp only [List.mem_cons, not_or] at h
    simp [splitChar, ih h.2, Ne.symm h.1]

/-- Model of JS `String.prototype.lastIndexOf` with a one-character needle:
`none` plays the role of JS's -1 result. -/
def lastIndexOfChar (needle : Char) : List Char → Option Nat
  | [] => none
  | c :: cs =>
    match lastIndexOfChar needle cs with
    | some i => some (i + 1)
    | none => if c = needle then some 0 else none

theorem lastIndexOfChar_of_not_mem (needle : Char) (l : List Char) (h : needle ∉ l) :
    lastIndexOfChar needle l = none := by
  induction l with
  | nil => rfl
  | cons c cs ih =>
    simp only [List.mem_cons, not_or] at h
    simp [lastIndexOfChar, ih h.2, Ne.symm h.1]

theorem lastIndexOfChar_append_sep (needle : Char) (xs ys : List Char)
    (h : needle ∉ ys) :
    lastIndexOfChar needle (xs ++ needle :: ys) = some xs.length := by
  induction xs with
  | nil => simp [lastIndexOfChar, lastIndexOfChar_of_not_mem needle ys h]
  | cons c cs ih => simp [lastIndexOfChar, ih]

/-- The fixed output path in the engine's virtual filesystem:
`const outputPath = "output.mp4"` (page.tsx line 78). -/
def outputPath : String := "output.mp4"

/-- Derived input extension:
`image.name.split('.').pop()?.toLowerCase() || 'png'` (page.tsx line 76).
JS `split('.')` always yields a non-empty array, so `pop()` is the last
dot-separated segment (the whole name when there is no dot); `|| 'png'`
replaces only the empty string, the sole falsy value that can arise. -/
def inputExtOf (name : String) : String :=
  let seg := ((splitChar '.' name.data).getLastD []).map Char.toLower
  if seg.isEmpty then "png" else ⟨seg⟩

/-- Derived input path, the template literal `input.${inputExt}`
(page.tsx line 77). -/
def inputPathOf (name : String) : String := "input." ++ inputExtOf name

/-- Built ffmpeg argument list (page.tsx lines 89-102): `-y` always first,
`-f image2` omitted exactly when the derived extension is `gif`
(`const isGif = inputExt === 'gif'`), then the fixed encode arguments and
the fixed output path. -/
def argsFor (name : String) : List String :=
  let inputExt := inputExtOf name
  let isGif := inputExt == "gif"
  ["-y"] ++ (if isGif then [] else ["-f", "image2"]) ++
    ["-loop", "1", "-i", inputPathOf name, "-t", "1",
     "-c:v", "libx264", "-preset", "medium", "-crf", "18",
     "-pix_fmt", "yuv420p",
     "-vf", "scale=\x27trunc(iw/2)*2:trunc(ih/2)*2\x27",
     outputPath]

/-- JS `name.substring(0, name.lastIndexOf('.'))` (page.tsx line 195):
empty when the name has no dot, because `lastIndexOf` returns -1 and
`substring` clamps it to 0. -/
def baseOf (name : String) : String :=
  match lastIndexOfChar '.' name.data with
  | none => ""
  | some i => ⟨name.data.take i⟩

/-- Download filename offered for a selected source file (page.tsx
line 195): `(name.substring(0, name.lastIndexOf('.')) || name) + ".mp4"`. -/
def downloadNameOf (name : String) : String :=
  (if baseOf name = "" then name else baseOf name) ++ ".mp4"

/-- A browser `File`: only the name matters to the orchestration logic;
the byte payload is treated as opaque. -/
structure FileRef where
  name : String
deriving DecidableEq, Repr

/-- React component state of `Home` (page.tsx lines 8-14): one field per
`useState` hook.  Object URLs are identified by the `Nat` id the
`UrlStore` issued for them. -/
structure AppState where
  loaded : Bool
  loading : Bool
  image : Option FileRef
  previewUrl : Option Nat
  videoUrl : Option Nat
  error : Option String
  progress : Int
deriving DecidableEq, Repr

/-- The browser's object-URL registry: `URL.createObjectURL` issues a
fresh id and adds it to the live set. -/
structure UrlStore where
  nextId : Nat
  live : List Nat
deriving DecidableEq, Repr

def createObjectURL (st : UrlStore) : Nat × UrlStore :=
  (st.nextId, { nextId := st.nextId + 1, live := st.nextId :: st.live })

/-- `URL.revokeObjectURL`: removes the id from the live set (revoking an
already-revoked URL is a no-op, as in the browser). -/
def revokeObjectURL (u : Nat) (st : UrlStore) : UrlStore :=
  { st with live := st.live.filter (fun v => v != u) }

/-- The engine's private virtual filesystem: the paths currently present. -/
abbrev VFS := List String

/-- `ffmpeg.writeFile` (page.tsx line 85): creates or overwrites the path. -/
def vfsWrite (p : String) (fs : VFS) : VFS :=
  if p ∈ fs then fs else p :: fs

/-- `ffmpeg.deleteFile` (page.tsx lines 112-113): removes the path,
throwing (modelled as `Except.error`) when it is absent. -/
def vfsDelete (p : String) (fs : VFS) : Except Unit VFS :=
  if p ∈ fs then .ok (fs.filter (fun q => q != p)) else .error ()

/-- The inner try/catch cleanup block (page.tsx lines 111-116): delete the
input path, then the output path; the first throw aborts the rest of the
block and is swallowed. -/
def cleanupVFS (inputPath : String) (fs : VFS) : VFS :=
  match vfsDelete inputPath fs with
  | .error _ => fs
  | .ok fs1 =>
    match vfsDelete outputPath fs1 with
    | .error _ => fs1
    | .ok fs2 => fs2

/-- JS `Math.round(progress * 100)` for a rational progress fraction:
`Math.round(x)` is `⌊x + 1/2⌋` (half-integers round toward positive
infinity), and for `p = num/den` with `den > 0` the value
`⌊100 p + 1/2⌋` is the floor division `(200 num + den) / (2 den)`;
`jsRound100_eq_floor` proves the two readings agree. -/
def jsRound100 (p : ℚ) : ℤ := (200 * p.num + p.den) / (2 * (p.den : ℤ))

/-- The registered progress sink (page.tsx lines 35-37): a fractional
engine progress report is forwarded to `setProgress` as
`Math.min(100, Math.round(progress * 100))`. -/
def forwardProgress (p : ℚ) : ℤ := min 100 (jsRound100 p)

/-- Deliver a list of engine progress events to the component state: each
event runs the progress sink, whose `setProgress` overwrites `progress`. -/
def applyEvents (events : List ℚ) (s : AppState) : AppState :=
  events.foldl (fun acc p => { acc with progress := forwardProgress p }) s

/-- Environment of one `convertToVideo` call: what the engine does during
`ffmpeg.exec` (the progress fractions it emits, then success or a thrown
error) and whether `ffmpeg.readFile` of the output succeeds.  `fetchFile`
and `writeFile` are modelled as succeeding. -/
structure RunBehavior where
  events : List ℚ
  execResult : Except String Unit
  readResult : Except String Unit

/-- Result of one `convertToVideo` call: final component state, object-URL
registry, virtual filesystem, and whether (and with which argument list)
`ffmpeg.exec` was invoked. -/
structure ConvertResult where
  state : AppState
  urls : UrlStore
  fs : VFS
  execInvoked : Bool
  execArgs : Option (List String)
deriving DecidableEq, Repr

/-- The `convertToVideo` handler (page.tsx lines 66-124), as a function of
the run environment, whether `ffmpegRef.current` is set, and the current
state.  Faithful control flow: the early return when no image is selected
or the engine is not loaded; `setLoading(true)`, `setProgress(0)`,
`setError(null)`; the early return when the engine ref is null (after
those three updates, with no `finally`); revocation of a previous video
URL; the input write; `exec` with the built argument list, forwarding
progress events; the output read and object-URL creation; the inner
best-effort cleanup, reached only when `exec` and `readFile` both
succeeded; the catch setting the error banner; the `finally` clearing
`loading`. -/
def convertToVideo (env : RunBehavior) (ffmpegPresent : Bool)
    (s : AppState) (st : UrlStore) (fs : VFS) : ConvertResult :=
  match s.image with
  | none => { state := s, urls := st, fs := fs, execInvoked := false, execArgs := none }
  | some img =>
    if !s.loaded then
      { state := s, urls := st, fs := fs, execInvoked := false, execArgs := none }
    else
      let s1 := { s with loading := true, progress := 0, error := none }
      if !ffmpegPresent then
        { state := s1, urls := st, fs := fs, execInvoked := false, execArgs := none }
      else
        let inputPath := inputPathOf img.name
        let args := argsFor img.name
        let st1 := match s1.videoUrl with
          | some u => revokeObjectURL u st
          | none => st
        let fs1 := vfsWrite inputPath fs
        let s2 := applyEvents env.events s1
        match env.execResult with
        | .error msg =>
          { state := { s2 with
              error := some ("Conversion failed (" ++ msg ++ "). Please try again with a different image."),
              loading := false },
            urls := st1, fs := fs1, execInvoked := true, execArgs := some args }
        | .ok _ =>
          let fs2 := vfsWrite outputPath fs1
          match env.readResult with
          | .error msg =>
            { state := { s2 with
                error := some ("Conversion failed (" ++ msg ++ "). Please try again with a different image."),
                loading := false },
              urls := st1, fs := fs2, execInvoked := true, execArgs := some args }
          | .ok _ =>
            let r := createObjectURL st1
            { state := { s2 with videoUrl := some r.1, loading := false },
              urls := r.2, fs := cleanupVFS inputPath fs2,
              execInvoked := true, execArgs := some args }

/-- The `handleUpload` change handler (page.tsx lines 54-64): with a file
selected, revoke the previous preview URL, create a fresh object URL for
the file and set preview, image, `videoUrl` to null and `error` to null;
with an empty selection, do nothing. -/
def handleUpload (sel : Option FileRef) (s : AppState) (st : UrlStore) :
    AppState × UrlStore :=
  match sel with
  | none => (s, st)
  | some file =>
    let st1 := match s.previewUrl with
      | some u => revokeObjectURL u st
      | none => st
    let r := createObjectURL st1
    let s1 : AppState := { s with
      previewUrl := some r.1, image := some file,
      videoUrl := none, error := none }
    (s1, r.2)

/-- The New Project button's onClick (page.tsx lines 183-188): revoke the
preview URL if set, then clear the preview, image and video references.
The video URL reference is dropped without revocation. -/
def resetProject (s : AppState) (st : UrlStore) : AppState × UrlStore :=
  let st1 := match s.previewUrl with
    | some u => revokeObjectURL u st
    | none => st
  let s1 : AppState := { s with previewUrl := none, image := none, videoUrl := none }
  (s1, st1)

/-- The Create Video button's disabled predicate (page.tsx line 170):
`!image || !loaded || loading`. -/
def buttonDisabled (s : AppState) : Bool :=
  s.image.isNone || !s.loaded || s.loading

/-- A click on the Create Video button: the browser delivers the click to
`convertToVideo` only when the button is not disabled. -/
def clickConvert (env : RunBehavior) (ffmpegPresent : Bool)
    (s : AppState) (st : UrlStore) (fs : VFS) : ConvertResult :=
  if buttonDisabled s then
    { state := s, urls := st, fs := fs, execInvoked := false, execArgs := none }
  else convertToVideo env ffmpegPresent s st fs

theorem mem_vfsWrite (q p : String) (fs : VFS) :
    q ∈ vfsWrite p fs ↔ q = p ∨ q ∈ fs := by
  unfold vfsWrite
  split
  · rename_i h
    constructor
    · exact Or.inr
    · rintro (rfl | hq)
      · exact h
      · assumption
  · simp [List.mem_cons]

theorem inputPathOf_ne_outputPath (name : String) :
    inputPathOf name ≠ outputPath := by
  intro h
  have hd : ("input." : String).data ++ (inputExtOf name).data = outputPath.data := by
    have := congrArg String.data h
    rwa [inputPathOf, String.data_append] at this
  have h1 : (("input." : String).data ++ (inputExtOf name).data).head? = some 'i' := rfl
  rw [hd] at h1
  exact absurd h1 (by decide)

theorem cleanup_removes (p : String) (hp : p ≠ outputPath) (fs : VFS) :
    p ∉ cleanupVFS p (vfsWrite outputPath (vfsWrite p fs)) ∧
    outputPath ∉ cleanupVFS p (vfsWrite outputPath (vfsWrite p fs)) := by
  have hpmem : p ∈ vfsWrite outputPath (vfsWrite p fs) := by
    rw [mem_vfsWrite, mem_vfsWrite]
    exact Or.inr (Or.inl rfl)
  have homem : outputPath ∈ vfsWrite outputPath (vfsWrite p fs) := by
    rw [mem_vfsWrite]
    exact Or.inl rfl
  have homem2 : outputPath ∈ (vfsWrite outputPath (vfsWrite p fs)).filter (fun q => q != p) := by
    rw [List.mem_filter]
    exact ⟨homem, by simpa using fun h => hp h.symm⟩
  have hc : cleanupVFS p (vfsWrite outputPath (vfsWrite p fs))
      = (((vfsWrite outputPath (vfsWrite p fs)).filter (fun q => q != p)).filter
          (fun q => q != outputPath)) := by
    unfold cleanupVFS vfsDelete
    rw [if_pos hpmem]
    dsimp only
    rw [if_pos homem2]
  rw [hc]
  constructor
  · intro hmem
    rw [List.mem_filter, List.mem_filter] at hmem
    exact absurd hmem.1.2 (by simp)
  · intro hmem
    rw [List.mem_filter] at hmem
    exact absurd hmem.2 (by simp)

theorem applyEvents_eq (events : List ℚ) (s : AppState) :
    applyEvents events s
      = { s with progress := events.foldl (fun _ p => forwardProgress p) s.progress } := by
  induction events generalizing s with
  | nil => rfl
  | cons p ps ih =>
    show applyEvents ps { s with progress := forwardProgress p }
        = { s with progress := ps.foldl (fun _ p => forwardProgress p) (forwardProgress p) }
    rw [ih]

theorem jsRound100_eq_floor (p : ℚ) :
    jsRound100 p = ⌊(100 * p + 1/2 : ℚ)⌋ := by
  have hd0 : ((p.den : ℚ)) ≠ 0 := Nat.cast_ne_zero.mpr p.den_nz
  have hpd : p * (p.den : ℚ) = (p.num : ℚ) := by
    have h0 := Rat.num_div_den p
    rw [div_eq_iff hd0] at h0
    exact h0.symm
  have hden : (((2 * p.den : ℕ)) : ℚ) ≠ 0 := by
    exact_mod_cast Nat.mul_ne_zero (by norm_num) p.den_nz
  have h : (100 * p + 1/2 : ℚ)
      = ((200 * p.num + (p.den : ℤ) : ℤ) : ℚ) / (((2 * p.den : ℕ)) : ℚ) := by
    rw [eq_div_iff hden]
    push_cast
    linear_combination (200 : ℚ) * hpd
  rw [h, Rat.floor_intCast_div_natCast, jsRound100]
  push_cast
  ring_nf

theorem splitChar_getLastD_ext (b e : List Char) (he : '.' ∉ e) :
    (splitChar '.' (b ++ '.' :: e)).getLastD [] = e := by
  rw [splitChar_append_sep, splitChar_of_not_mem _ _ he, List.getLastD_concat]

theorem inputExtOf_ext (b e : List Char) (he : '.' ∉ e) (hne : e ≠ []) :
    inputExtOf ⟨b ++ '.' :: e⟩ = ⟨e.map Char.toLower⟩ := by
  have hmap : (e.map Char.toLower).isEmpty = false := by
    cases e with
    | nil => exact absurd rfl hne
    | cons c cs => rfl
  unfold inputExtOf
  dsimp only
  rw [splitChar_getLastD_ext b e he, hmap]
  rfl

theorem inputExtOf_no_dot (l : List Char) (h : '.' ∉ l) (hne : l ≠ []) :
    inputExtOf ⟨l⟩ = ⟨l.map Char.toLower⟩ := by
  have hmap : (l.map Char.toLower).isEmpty = false := by
    cases l with
    | nil => exact absurd rfl hne
    | cons c cs => rfl
  unfold inputExtOf
  dsimp only
  rw [splitChar_of_not_mem _ _ h,
    show ([l] : List (List Char)) = [] ++ [l] from rfl, List.getLastD_concat, hmap]
  rfl

theorem inputExtOf_trailing_dot (b : List Char) :
    inputExtOf ⟨b ++ ['.']⟩ = "png" := by
  unfold inputExtOf
  dsimp only
  rw [show b ++ ['.'] = b ++ '.' :: ([] : List Char) from rfl,
    splitChar_append_sep, splitChar_of_not_mem '.' [] (by decide),
    List.getLastD_concat]
  rfl

theorem baseOf_ext (b e : List Char) (he : '.' ∉ e) :
    baseOf ⟨b ++ '.' :: e⟩ = ⟨b⟩ := by
  unfold baseOf
  dsimp only
  rw [lastIndexOfChar_append_sep '.' b e he]
  dsimp only
  rw [List.take_left]

theorem mk_ne_empty (b : List Char) (hb : b ≠ []) : (⟨b⟩ : String) ≠ "" := by
  intro h
  exact hb (congrArg String.data h)

theorem downloadNameOf_ext (b e : List Char) (he : '.' ∉ e) (hb : b ≠ []) :
    downloadNameOf ⟨b ++ '.' :: e⟩ = (⟨b⟩ : String) ++ ".mp4" := by
  unfold downloadNameOf
  rw [baseOf_ext b e he, if_neg (mk_ne_empty b hb)]

/-- C1 counterexample: the claim that cleanup is attempted on every exit
path is false.  When `ffmpeg.exec` throws, control jumps to the outer
catch before the `deleteFile` calls, so after the conversion the derived
input path is still present in the engine's virtual filesystem. -/
theorem C1_counterexample :
    inputPathOf "a.png" ∈ (convertToVideo ⟨[], .error "boom", .ok ()⟩ true
      ⟨true, false, some ⟨"a.png"⟩, some 0, none, none, 0⟩ ⟨1, [0]⟩ []).fs := by
  decide

/-- C1 (amended): deletion of the input and output paths from the
virtual filesystem is attempted only on the success path, after both the
engine run and the output read succeed; in that case both deletions
happen and the virtual filesystem afterwards contains neither the
derived input path nor the fixed output path. -/
theorem C1_cleanup_on_success (env : RunBehavior) (s : AppState) (st : UrlStore)
    (fs : VFS) (img : FileRef) (hi : s.image = some img) (hl : s.loaded = true)
    (hex : env.execResult = .ok ()) (hrd : env.readResult = .ok ()) :
    inputPathOf img.name ∉ (convertToVideo env true s st fs).fs ∧
    outputPath ∉ (convertToVideo env true s st fs).fs := by
  obtain ⟨events, execR, readR⟩ := env
  obtain ⟨loaded, loading, image, pu, vu, err, prog⟩ := s
  dsimp only at hi hl hex hrd
  subst hi hl hex hrd
  have hfs : (convertToVideo ⟨events, .ok (), .ok ()⟩ true
      ⟨true, loading, some img, pu, vu, err, prog⟩ st fs).fs
      = cleanupVFS (inputPathOf img.name)
          (vfsWrite outputPath (vfsWrite (inputPathOf img.name) fs)) := rfl
  rw [hfs]
  exact cleanup_removes (inputPathOf img.name) (inputPathOf_ne_outputPath img.name) fs

theorem C1_witness :
    inputPathOf "b.png" ∉ (convertToVideo ⟨[], .ok (), .ok ()⟩ true
        ⟨true, false, some ⟨"b.png"⟩, some 0, none, none, 0⟩ ⟨1, [0]⟩ []).fs ∧
    outputPath ∉ (convertToVideo ⟨[], .ok (), .ok ()⟩ true
        ⟨true, false, some ⟨"b.png"⟩, some 0, none, none, 0⟩ ⟨1, [0]⟩ []).fs :=
  C1_cleanup_on_success ⟨[], .ok (), .ok ()⟩
    ⟨true, false, some ⟨"b.png"⟩, some 0, none, none, 0⟩ ⟨1, [0]⟩ [] ⟨"b.png"⟩
    rfl rfl rfl rfl

/-- C2 counterexample: the claim that reset from Success revokes both the
preview and the output handle, and that no handle reference is dropped
without being revoked, is false.  In a Success state with preview handle
0 and output handle 1 both live, the New Project reset drops the
`videoUrl` reference to handle 1 while 1 is still live (never revoked). -/
theorem C2_counterexample :
    (resetProject ⟨true, false, some ⟨"a.png"⟩, some 0, some 1, none, 100⟩
      ⟨2, [1, 0]⟩).1.videoUrl = none ∧
    1 ∈ (resetProject ⟨true, false, some ⟨"a.png"⟩, some 0, some 1, none, 100⟩
      ⟨2, [1, 0]⟩).2.live := by
  decide

/-- C2 (amended): selecting a new source revokes the prior preview handle
before creating the replacement, and reset revokes the prior preview
handle and clears the source; but in both operations the prior output
handle reference is dropped without revocation and stays live.  (The
hypothesis that the fresh id differs from the old preview id models the
browser's guarantee that `createObjectURL` never returns an existing
URL.) -/
theorem C2_handle_revocation (s : AppState) (st : UrlStore) (f : FileRef) (u v : Nat)
    (hp : s.previewUrl = some u) (hv : s.videoUrl = some v) (hvu : v ≠ u)
    (hun : u ≠ st.nextId) (hlive : v ∈ st.live) :
    (u ∉ (handleUpload (some f) s st).2.live ∧
      (handleUpload (some f) s st).1.videoUrl = none ∧
      v ∈ (handleUpload (some f) s st).2.live) ∧
    (u ∉ (resetProject s st).2.live ∧
      (resetProject s st).1.videoUrl = none ∧
      (resetProject s st).1.image = none ∧
      v ∈ (resetProject s st).2.live) := by
  obtain ⟨loaded, loading, image, pu, vu, err, prog⟩ := s
  dsimp only at hp hv
  subst hp hv
  constructor
  · refine ⟨?_, rfl, ?_⟩
    · show u ∉ st.nextId :: st.live.filter (fun x => x != u)
      intro hmem
      rcases List.mem_cons.mp hmem with h | h
      · exact hun h
      · exact absurd (List.mem_filter.mp h).2 (by simp)
    · show v ∈ st.nextId :: st.live.filter (fun x => x != u)
      exact List.mem_cons_of_mem _ (List.mem_filter.mpr ⟨hlive, by simpa using hvu⟩)
  · refine ⟨?_, rfl, rfl, ?_⟩
    · show u ∉ st.live.filter (fun x => x != u)
      intro hmem
      exact absurd (List.mem_filter.mp hmem).2 (by simp)
    · exact List.mem_filter.mpr ⟨hlive, by simpa using hvu⟩

theorem C2_witness :
    (0 ∉ (handleUpload (some ⟨"b.png"⟩)
        ⟨true, false, some ⟨"a.png"⟩, some 0, some 1, none, 0⟩ ⟨2, [1, 0]⟩).2.live ∧
      (handleUpload (some ⟨"b.png"⟩)
        ⟨true, false, some ⟨"a.png"⟩, some 0, some 1, none, 0⟩ ⟨2, [1, 0]⟩).1.videoUrl = none ∧
      1 ∈ (handleUpload (some ⟨"b.png"⟩)
        ⟨true, false, some ⟨"a.png"⟩, some 0, some 1, none, 0⟩ ⟨2, [1, 0]⟩).2.live) ∧
    (0 ∉ (resetProject
        ⟨true, false, some ⟨"a.png"⟩, some 0, some 1, none, 0⟩ ⟨2, [1, 0]⟩).2.live ∧
      (resetProject
        ⟨true, false, some ⟨"a.png"⟩, some 0, some 1, none, 0⟩ ⟨2, [1, 0]⟩).1.videoUrl = none ∧
      (resetProject
        ⟨true, false, some ⟨"a.png"⟩, some 0, some 1, none, 0⟩ ⟨2, [1, 0]⟩).1.image = none ∧
      1 ∈ (resetProject
        ⟨true, false, some ⟨"a.png"⟩, some 0, some 1, none, 0⟩ ⟨2, [1, 0]⟩).2.live) :=
  C2_handle_revocation ⟨true, false, some ⟨"a.png"⟩, some 0, some 1, none, 0⟩
    ⟨2, [1, 0]⟩ ⟨"b.png"⟩ 0 1 rfl rfl (by decide) (by decide) (by decide)

/-- C3 counterexample: the claim that a second `convertToVideo` call while
a conversion is in flight (`loading = true`) is rejected with no engine
run is false: `convertToVideo` never checks `loading`, so a direct call
in a loading-true state still invokes `ffmpeg.exec`. -/
theorem C3_counterexample :
    (convertToVideo ⟨[], .ok (), .ok ()⟩ true
      ⟨true, true, some ⟨"a.png"⟩, some 0, none, none, 0⟩ ⟨1, [0]⟩ []).execInvoked = true := by
  decide

/-- C3 (amended): mutual exclusion of conversions is enforced only by the
UI: while `loading` is true the Create Video button is disabled, so a
second activation through the button performs no engine run and no state
change; the `convertToVideo` function itself performs no `loading` check
(see `C3_counterexample`). -/
theorem C3_second_call_via_button (env : RunBehavior) (fp : Bool) (s : AppState)
    (st : UrlStore) (fs : VFS) (h : s.loading = true) :
    buttonDisabled s = true ∧
    clickConvert env fp s st fs
      = { state := s, urls := st, fs := fs, execInvoked := false, execArgs := none } := by
  have hd : buttonDisabled s = true := by
    unfold buttonDisabled
    rw [h]
    simp
  exact ⟨hd, by unfold clickConvert; rw [hd]; rfl⟩

theorem C3_witness :
    buttonDisabled ⟨true, true, some ⟨"a.png"⟩, some 0, none, none, 0⟩ = true ∧
    clickConvert ⟨[], .ok (), .ok ()⟩ true
        ⟨true, true, some ⟨"a.png"⟩, some 0, none, none, 0⟩ ⟨1, [0]⟩ []
      = { state := ⟨true, true, some ⟨"a.png"⟩, some 0, none, none, 0⟩,
          urls := ⟨1, [0]⟩, fs := [], execInvoked := false, execArgs := none } :=
  C3_second_call_via_button ⟨[], .ok (), .ok ()⟩ true
    ⟨true, true, some ⟨"a.png"⟩, some 0, none, none, 0⟩ ⟨1, [0]⟩ [] rfl

/-- C4: for every source filename the built argument list starts with the
force-overwrite flag `-y`; it omits the single-image decode hint
`-f image2` exactly when the derived (lowercased) extension is `gif` and
includes it otherwise; and in both cases it contains, in order, the
single-frame loop, the 1-second duration limit, libx264 with preset
medium and CRF 18, the yuv420p pixel format, the even-rounding scale
filter, and the fixed output path.  The final conjunct records that the
gif match is case-insensitive (the extension is lowercased first). -/
theorem C4_argument_list (name : String) :
    (argsFor name =
      if inputExtOf name = "gif" then
        ["-y", "-loop", "1", "-i", "input.gif", "-t", "1", "-c:v", "libx264",
         "-preset", "medium", "-crf", "18", "-pix_fmt", "yuv420p",
         "-vf", "scale=\x27trunc(iw/2)*2:trunc(ih/2)*2\x27", outputPath]
      else
        ["-y", "-f", "image2", "-loop", "1", "-i", inputPathOf name, "-t", "1",
         "-c:v", "libx264", "-preset", "medium", "-crf", "18", "-pix_fmt", "yuv420p",
         "-vf", "scale=\x27trunc(iw/2)*2:trunc(ih/2)*2\x27", outputPath]) ∧
    (argsFor name).head? = some "-y" ∧
    inputExtOf "x.GIF" = "gif" := by
  have h1 : argsFor name =
      if inputExtOf name = "gif" then
        ["-y", "-loop", "1", "-i", "input.gif", "-t", "1", "-c:v", "libx264",
         "-preset", "medium", "-crf", "18", "-pix_fmt", "yuv420p",
         "-vf", "scale=\x27trunc(iw/2)*2:trunc(ih/2)*2\x27", outputPath]
      else
        ["-y", "-f", "image2", "-loop", "1", "-i", inputPathOf name, "-t", "1",
         "-c:v", "libx264", "-preset", "medium", "-crf", "18", "-pix_fmt", "yuv420p",
         "-vf", "scale=\x27trunc(iw/2)*2:trunc(ih/2)*2\x27", outputPath] := by
    by_cases h : inputExtOf name = "gif"
    · rw [if_pos h]
      unfold argsFor inputPathOf
      rw [h]
      rfl
    · rw [if_neg h]
      unfold argsFor
      dsimp only
      rw [show (inputExtOf name == "gif") = false from beq_eq_false_iff_ne.mpr h]
      rfl
  refine ⟨h1, ?_, by decide⟩
  rw [h1]
  split <;> rfl

/-- C5: invoking `convertToVideo` with no source image selected or with
the engine not loaded is a synchronous early return: no engine run, no
error banner, and no state change at all. -/
theorem C5_not_ready (env : RunBehavior) (fp : Bool) (s : AppState) (st : UrlStore)
    (fs : VFS) (h : s.image = none ∨ s.loaded = false) :
    convertToVideo env fp s st fs
      = { state := s, urls := st, fs := fs, execInvoked := false, execArgs := none } := by
  cases him : s.image with
  | none =>
    unfold convertToVideo
    rw [him]
  | some img =>
    rcases h with h | h
    · rw [him] at h
      exact absurd h (by simp)
    · unfold convertToVideo
      rw [him, h]
      rfl

theorem C5_witness :
    ((⟨false, false, none, none, none, none, 0⟩ : AppState).image = none ∨
      (⟨false, false, none, none, none, none, 0⟩ : AppState).loaded = false) ∧
    convertToVideo ⟨[], .ok (), .ok ()⟩ true
        ⟨false, false, none, none, none, none, 0⟩ ⟨0, []⟩ []
      = { state := ⟨false, false, none, none, none, none, 0⟩,
          urls := ⟨0, []⟩, fs := [], execInvoked := false, execArgs := none } :=
  ⟨Or.inl rfl, C5_not_ready ⟨[], .ok (), .ok ()⟩ true
    ⟨false, false, none, none, none, none, 0⟩ ⟨0, []⟩ [] (Or.inl rfl)⟩

theorem convert_error_shape (events : List ℚ) (msg : String) (readR : Except String Unit)
    (loading : Bool) (pu vu : Option Nat) (err : Option String) (prog : Int)
    (img : FileRef) (st : UrlStore) (fs : VFS) :
    convertToVideo ⟨events, .error msg, readR⟩ true
        ⟨true, loading, some img, pu, vu, err, prog⟩ st fs
      = { state := { loaded := true, loading := false, image := some img,
                     previewUrl := pu, videoUrl := vu,
                     error := some ("Conversion failed (" ++ msg
                       ++ "). Please try again with a different image."),
                     progress := events.foldl (fun _ p => forwardProgress p) 0 },
          urls := (match vu with | some u => revokeObjectURL u st | none => st),
          fs := vfsWrite (inputPathOf img.name) fs,
          execInvoked := true,
          execArgs := some (argsFor img.name) } := by
  have h1 : convertToVideo ⟨events, .error msg, readR⟩ true
        ⟨true, loading, some img, pu, vu, err, prog⟩ st fs
      = { state := { applyEvents events ⟨true, true, some img, pu, vu, none, 0⟩ with
                     error := some ("Conversion failed (" ++ msg
                       ++ "). Please try again with a different image."),
                     loading := false },
          urls := (match vu with | some u => revokeObjectURL u st | none => st),
          fs := vfsWrite (inputPathOf img.name) fs,
          execInvoked := true,
          execArgs := some (argsFor img.name) } := rfl
  rw [h1, applyEvents_eq]

/-- C6 counterexample: the claim that progress is reset to 0 after an
engine failure is false.  With one progress event of one half delivered
before `ffmpeg.exec` throws, the progress left behind by the failed
conversion is 50, not 0 (the code resets progress only at the start of a
conversion, never in the catch path). -/
theorem C6_counterexample :
    (convertToVideo ⟨[mkRat 1 2], .error "boom", .ok ()⟩ true
        ⟨true, false, some ⟨"a.png"⟩, some 0, none, none, 0⟩ ⟨1, [0]⟩ []).state.progress = 50 ∧
    (convertToVideo ⟨[mkRat 1 2], .error "boom", .ok ()⟩ true
        ⟨true, false, some ⟨"a.png"⟩, some 0, none, none, 0⟩ ⟨1, [0]⟩ []).state.progress ≠ 0 := by
  decide

/-- C6 (amended): when the engine run throws mid-execution, the session
shows the error banner with the underlying message appended to the fixed
prefix, the source artifact is still present and unchanged, loading is
cleared, no new output handle is created (and a previous output handle,
though its reference survives, has been revoked), and the progress value
is the last forwarded progress event of the failed run (0 was set at the
start of the conversion, but progress is not reset after the failure). -/
theorem C6_error_transition (env : RunBehavior) (s : AppState) (st : UrlStore)
    (fs : VFS) (img : FileRef) (msg : String)
    (hi : s.image = some img) (hl : s.loaded = true)
    (hex : env.execResult = .error msg) :
    (convertToVideo env true s st fs).state.error
        = some ("Conversion failed (" ++ msg ++ "). Please try again with a different image.") ∧
    (convertToVideo env true s st fs).state.image = some img ∧
    (convertToVideo env true s st fs).state.loading = false ∧
    (convertToVideo env true s st fs).state.videoUrl = s.videoUrl ∧
    (convertToVideo env true s st fs).state.progress
        = env.events.foldl (fun _ p => forwardProgress p) 0 ∧
    (convertToVideo env true s st fs).urls.nextId = st.nextId ∧
    (∀ u, s.videoUrl = some u → u ∉ (convertToVideo env true s st fs).urls.live) ∧
    (convertToVideo env true s st fs).execInvoked = true := by
  obtain ⟨events, execR, readR⟩ := env
  obtain ⟨loaded, loading, image, pu, vu, err, prog⟩ := s
  dsimp only at hi hl hex
  subst hi hl hex
  rw [convert_error_shape events msg readR loading pu vu err prog img st fs]
  refine ⟨rfl, rfl, rfl, rfl, rfl, ?_, ?_, rfl⟩
  · cases vu <;> rfl
  · intro u hu
    cases vu with
    | none => exact absurd hu (by simp)
    | some w =>
      have hw : w = u := by
        dsimp only at hu
        exact Option.some.inj hu
      subst hw
      show w ∉ st.live.filter (fun x => x != w)
      intro hmem
      exact absurd (List.mem_filter.mp hmem).2 (by simp)

theorem C6_witness :
    (convertToVideo ⟨[], .error "oom", .ok ()⟩ true
        ⟨true, false, some ⟨"c.png"⟩, some 4, some 5, none, 0⟩ ⟨7, [5, 4]⟩ []).state.error
        = some ("Conversion failed (" ++ "oom" ++ "). Please try again with a different image.") ∧
    (convertToVideo ⟨[], .error "oom", .ok ()⟩ true
        ⟨true, false, some ⟨"c.png"⟩, some 4, some 5, none, 0⟩ ⟨7, [5, 4]⟩ []).state.image
        = some ⟨"c.png"⟩ ∧
    (convertToVideo ⟨[], .error "oom", .ok ()⟩ true
        ⟨true, false, some ⟨"c.png"⟩, some 4, some 5, none, 0⟩ ⟨7, [5, 4]⟩ []).state.progress
        = ([] : List ℚ).foldl (fun _ p => forwardProgress p) 0 ∧
    5 ∉ (convertToVideo ⟨[], .error "oom", .ok ()⟩ true
        ⟨true, false, some ⟨"c.png"⟩, some 4, some 5, none, 0⟩ ⟨7, [5, 4]⟩ []).urls.live := by
  have h := C6_error_transition ⟨[], .error "oom", .ok ()⟩
    ⟨true, false, some ⟨"c.png"⟩, some 4, some 5, none, 0⟩ ⟨7, [5, 4]⟩ [] ⟨"c.png"⟩
    "oom" rfl rfl rfl
  exact ⟨h.1, h.2.1, h.2.2.2.2.1, h.2.2.2.2.2.2.1 5 rfl⟩

/-- C7 counterexample: the claim that the input filename defaults to the
fixed extension `png` when the source has no extension is false: for the
extension-less name `photo`, JS `split('.').pop()` returns the whole
name, so the derived input path is `input.photo`, not `input.png`. -/
theorem C7_counterexample :
    inputPathOf "photo" = "input.photo" ∧ inputPathOf "photo" ≠ "input.png" := by
  decide

/-- C7 (amended): the derived input filename is `input.` followed by the
lowercased last dot-separated segment of the source name: the extension
(used verbatim, with no recognition check) when the name has a dot and a
nonempty final segment; the entire lowercased name when the name has no
dot; and the default `png` exactly when that final segment is empty (the
name is empty or ends with a dot).  The output filename is always the
constant `output.mp4`. -/
theorem C7_input_filename :
    (∀ b e : List Char, '.' ∉ e → e ≠ [] →
        inputExtOf ⟨b ++ '.' :: e⟩ = ⟨e.map Char.toLower⟩) ∧
    (∀ l : List Char, '.' ∉ l → l ≠ [] →
        inputExtOf ⟨l⟩ = ⟨l.map Char.toLower⟩) ∧
    (∀ b : List Char, inputExtOf ⟨b ++ ['.']⟩ = "png") ∧
    inputExtOf "" = "png" ∧
    (∀ name : String, inputPathOf name = "input." ++ inputExtOf name) ∧
    outputPath = "output.mp4" :=
  ⟨inputExtOf_ext, inputExtOf_no_dot, inputExtOf_trailing_dot, by decide,
    fun _ => rfl, rfl⟩

theorem C7_witness :
    inputExtOf ⟨"a".data ++ '.' :: "XYZ".data⟩ = ⟨("XYZ".data).map Char.toLower⟩ ∧
    inputExtOf ⟨"photo".data⟩ = ⟨("photo".data).map Char.toLower⟩ ∧
    inputExtOf ⟨"x".data ++ ['.']⟩ = "png" :=
  ⟨C7_input_filename.1 "a".data "XYZ".data (by decide) (by decide),
   C7_input_filename.2.1 "photo".data (by decide) (by decide),
   C7_input_filename.2.2.1 "x".data⟩

/-- C8: every progress fraction in the unit interval emitted by the
engine is forwarded to the progress sink as the rounded integer
percentage (floor of 100 p plus one half, i.e. JS `Math.round(p * 100)`,
the upper clamp being inactive on this interval), and the forwarded
value always lies within 0 and 100. -/
theorem C8_progress_forwarding (p : ℚ) (h0 : 0 ≤ p) (h1 : p ≤ 1) :
    forwardProgress p = ⌊(100 * p + 1/2 : ℚ)⌋ ∧
    0 ≤ forwardProgress p ∧ forwardProgress p ≤ 100 := by
  have hub : ⌊(100 * p + 1/2 : ℚ)⌋ ≤ 100 := by
    have h2 : ⌊(100 * p + 1/2 : ℚ)⌋ < 101 := by
      apply Int.floor_lt.mpr
      push_cast
      linarith
    omega
  have hlb : 0 ≤ ⌊(100 * p + 1/2 : ℚ)⌋ := by
    apply Int.le_floor.mpr
    push_cast
    linarith
  have heq : forwardProgress p = ⌊(100 * p + 1/2 : ℚ)⌋ := by
    rw [forwardProgress, jsRound100_eq_floor]
    exact min_eq_right hub
  exact ⟨heq, heq ▸ hlb, heq ▸ hub⟩

theorem C8_witness :
    ((0 : ℚ) ≤ mkRat 1 2 ∧ (mkRat 1 2 : ℚ) ≤ 1) ∧
    (forwardProgress (mkRat 1 2) = ⌊(100 * (mkRat 1 2) + 1/2 : ℚ)⌋ ∧
      0 ≤ forwardProgress (mkRat 1 2) ∧ forwardProgress (mkRat 1 2) ≤ 100) :=
  ⟨⟨by decide, by decide⟩,
    C8_progress_forwarding (mkRat 1 2) (by decide) (by decide)⟩

/-- C9 counterexample: the claim that the download filename always equals
the source base (all characters before the last dot) plus `.mp4` is
false for `.gif`: the base is empty, so the code falls back to the full
source name and offers `.gif.mp4` instead of the claimed `.mp4`. -/
theorem C9_counterexample :
    baseOf ".gif" = "" ∧ downloadNameOf ".gif" = ".gif.mp4" ∧
    downloadNameOf ".gif" ≠ ".mp4" := by
  decide

/-- C9 (amended): the download filename is the source name stripped of
everything from the last dot on, plus `.mp4`, whenever that stripped
base is nonempty; when the base is empty (no dot, or nothing before the
last dot) the full source name is used instead.  In particular source
`photo.jpg` yields `photo.mp4`. -/
theorem C9_download_filename :
    (∀ b e : List Char, '.' ∉ e → b ≠ [] →
        downloadNameOf ⟨b ++ '.' :: e⟩ = (⟨b⟩ : String) ++ ".mp4") ∧
    (∀ name : String, baseOf name = "" → downloadNameOf name = name ++ ".mp4") ∧
    downloadNameOf "photo.jpg" = "photo.mp4" :=
  ⟨downloadNameOf_ext,
   fun name h => by unfold downloadNameOf; rw [h, if_pos rfl],
   by decide⟩

theorem C9_witness :
    downloadNameOf ⟨"photo".data ++ '.' :: "jpg".data⟩ = ("photo" : String) ++ ".mp4" ∧
    downloadNameOf "photo" = "photo" ++ ".mp4" :=
  ⟨C9_download_filename.1 "photo".data "jpg".data (by decide) (by decide),
   C9_download_filename.2.1 "photo" (by decide)⟩

/-- C10: invoking the file-selection handler with an empty selection is a
no-op: the component state (preview handle, source image, output handle,
error message) and the object-URL registry are returned unchanged. -/
theorem C10_empty_selection_noop (s : AppState) (st : UrlStore) :
    handleUpload none s st = (s, st) := rfl

end Moviefy
